import Mathlib

/-!
Verification of the campfinder availability resolution engine.

The definitions below are a shallow embedding of `src/main.py`.  Python
dictionaries are modelled as association lists whose insertion operation
replaces an existing key in place and otherwise appends, matching the
insertion-order semantics of `dict`.  Calendar dates are modelled as day
numbers (day 0 = 0001-01-01, proleptic Gregorian), matching
`datetime.datetime` arithmetic; the conversion functions port CPython's
`_ord2ymd` / `_ymd2ord` algorithms.
-/

namespace CampFinder

/-- Lookup in an association list (Python `d.get(k)` / `d[k]`). -/
def dfind {α : Type} : List (String × α) → String → Option α
  | [], _ => none
  | (k, v) :: t, k' => if k' = k then some v else dfind t k'

/-- Assignment `d[k] = v` on a Python dict: replace in place if the key is
present, otherwise append, preserving insertion order. -/
def dinsert {α : Type} (k : String) (v : α) : List (String × α) → List (String × α)
  | [] => [(k, v)]
  | (k', v') :: t => if k' = k then (k, v) :: t else (k', v') :: dinsert k v t

/-- Python `d1.update(d2)`: assign every entry of `d2` into `d1` in order. -/
def dupdate {α : Type} (d1 d2 : List (String × α)) : List (String × α) :=
  d2.foldl (fun acc kv => dinsert kv.1 kv.2 acc) d1

/-- The keys of an association list are pairwise distinct (true of every
association list arising from a Python dict). -/
def NodupKeys {α : Type} (d : List (String × α)) : Prop := (d.map Prod.fst).Nodup

theorem dfind_dinsert {α : Type} (d : List (String × α)) (k : String) (v : α) (k' : String) :
    dfind (dinsert k v d) k' = if k' = k then some v else dfind d k' := by
  induction d with
  | nil => simp [dinsert, dfind]
  | cons hd tl ih =>
    obtain ⟨k0, v0⟩ := hd
    by_cases h0 : k0 = k
    · subst h0
      by_cases h1 : k' = k0 <;> simp [dinsert, dfind, h1]
    · by_cases h1 : k' = k0
      · subst h1
        have h2 : ¬ k' = k := h0
        simp [dinsert, dfind, h0, h2]
      · simp [dinsert, dfind, h0, h1, ih]

theorem dfind_eq_none_of_not_mem {α : Type} (d : List (String × α)) (k : String)
    (h : k ∉ d.map Prod.fst) : dfind d k = none := by
  induction d with
  | nil => rfl
  | cons hd tl ih =>
    obtain ⟨k0, v0⟩ := hd
    simp only [List.map_cons, List.mem_cons] at h
    push_neg at h
    simp [dfind, h.1, ih h.2]

theorem mem_snd_of_dfind {α : Type} (d : List (String × α)) (k : String) (v : α)
    (h : dfind d k = some v) : v ∈ d.map Prod.snd := by
  induction d with
  | nil => simp [dfind] at h
  | cons hd tl ih =>
    obtain ⟨k0, v0⟩ := hd
    by_cases h0 : k = k0
    · simp [dfind, h0] at h
      simp [h]
    · simp only [dfind, h0, if_false] at h
      simp [ih h]

theorem mem_of_dfind_eq_some {α : Type} (d : List (String × α)) (k : String) (v : α)
    (h : dfind d k = some v) : (k, v) ∈ d := by
  induction d with
  | nil => simp [dfind] at h
  | cons hd tl ih =>
    obtain ⟨k0, v0⟩ := hd
    by_cases h0 : k = k0
    · subst h0
      simp [dfind] at h
      simp [h]
    · simp only [dfind, h0, if_false] at h
      exact List.mem_cons_of_mem _ (ih h)

theorem dfind_dupdate {α : Type} (d1 d2 : List (String × α)) (k : String)
    (h : NodupKeys d2) :
    dfind (dupdate d1 d2) k = (dfind d2 k).orElse (fun _ => dfind d1 k) := by
  induction d2 generalizing d1 with
  | nil => simp [dupdate, dfind, Option.orElse]
  | cons hd tl ih =>
    obtain ⟨k2, v2⟩ := hd
    rw [NodupKeys, List.map_cons, List.nodup_cons] at h
    have hnd : NodupKeys tl := h.2
    have hk2 : k2 ∉ tl.map Prod.fst := h.1
    show dfind (dupdate (dinsert k2 v2 d1) tl) k = _
    rw [ih _ hnd]
    by_cases hk : k = k2
    · subst hk
      rw [dfind_eq_none_of_not_mem tl k hk2]
      simp [dfind, dfind_dinsert, Option.orElse]
    · simp [dfind, hk, dfind_dinsert, Option.orElse]

/-! ### Calendar arithmetic (port of `datetime.date` / CPython `_ymd2ord`, `_ord2ymd`) -/

def isLeap (y : Nat) : Bool := y % 4 == 0 && (y % 100 != 0 || y % 400 == 0)

def daysInMonth (m : Nat) (leap : Bool) : Nat :=
  if m = 2 then (if leap then 29 else 28)
  else if m = 4 ∨ m = 6 ∨ m = 9 ∨ m = 11 then 30 else 31

def daysBeforeMonth (m : Nat) (leap : Bool) : Nat :=
  (List.range (m - 1)).foldl (fun acc i => acc + daysInMonth (i + 1) leap) 0

def daysBeforeYear (y : Nat) : Nat :=
  365 * (y - 1) + (y - 1) / 4 + (y - 1) / 400 - (y - 1) / 100

/-- Day number (0-based, day 0 = 0001-01-01) of the Gregorian date y-m-d. -/
def toDay (y m d : Nat) : Nat := daysBeforeYear y + daysBeforeMonth m (isLeap y) + (d - 1)

/-- Walk the twelve months to split a 0-based day-of-year into (month, day). -/
def civilMonthDay (leap : Bool) (doy : Nat) : Nat × Nat :=
  let r := (List.range 12).foldl
    (fun acc i =>
      if acc.2.2 then acc
      else if acc.2.1 < daysInMonth (i + 1) leap then (i + 1, acc.2.1, true)
      else (i + 1, acc.2.1 - daysInMonth (i + 1) leap, false))
    (1, doy, false)
  (r.1, r.2.1 + 1)

/-- Inverse of `toDay` (port of CPython `_ord2ymd`). -/
def civilFromDay (n : Nat) : Nat × Nat × Nat :=
  let n400 := n / 146097
  let r1 := n % 146097
  let n100 := r1 / 36524
  let r2 := r1 % 36524
  let n4 := r2 / 1461
  let r3 := r2 % 1461
  let n1 := r3 / 365
  let r4 := r3 % 365
  let year := n400 * 400 + 1 + n100 * 100 + n4 * 4 + n1
  if n1 = 4 ∨ n100 = 4 then (year - 1, 12, 31)
  else
    let md := civilMonthDay (isLeap year) r4
    (year, md.1, md.2)

def pad2 (n : Nat) : String := if n < 10 then "0" ++ toString n else toString n

def pad4 (n : Nat) : String :=
  if n < 10 then "000" ++ toString n
  else if n < 100 then "00" ++ toString n
  else if n < 1000 then "0" ++ toString n
  else toString n

/-- The `%Y-%m-%d` rendering of a day number. -/
def dateStr (d : Nat) : String :=
  pad4 (civilFromDay d).1 ++ "-" ++ pad2 (civilFromDay d).2.1 ++ "-" ++ pad2 (civilFromDay d).2.2

/-- `strftime("%Y-%m-%dT00:00:00Z")`: the NightKey of a date (main.py line 86). -/
def nightKey (d : Nat) : String := dateStr d ++ "T00:00:00Z"

/-- `strftime("%Y-%m-%dT00:00:00.000Z")`: the month string sent upstream and
echoed in fetch-failure messages (main.py line 105). -/
def monthKey (d : Nat) : String := dateStr d ++ "T00:00:00.000Z"

/-- Truncation of a date to the first of its month (`.replace(day=1)`). -/
def firstOfMonth (d : Nat) : Nat := toDay (civilFromDay d).1 (civilFromDay d).2.1 1

/-! ### DateRangeExpander (main.py lines 84-90, 101) -/

/-- Number of nights produced by `range((end_date - start_date).days + 1)`:
a Python `range` over a non-positive bound is empty. -/
def rangeLen (s e : Nat) : Nat := (((e : Int) - (s : Int)) + 1).toNat

/-- The dates (day numbers) underlying the night keys of the range. -/
def datesOf (s e : Nat) : List Nat := (List.range (rangeLen s e)).map (fun n => s + n)

/-- `daterange(start, end)` (main.py lines 84-86): the ordered list of
midnight-UTC night-key strings from start through end inclusive. -/
def daterange (s e : Nat) : List String := (datesOf s e).map nightKey

/-- Insertion into a strictly sorted list, dropping duplicates. -/
def sinsert (x : Nat) : List Nat → List Nat
  | [] => [x]
  | y :: t => if x < y then x :: y :: t else if x = y then y :: t else y :: sinsert x t

/-- Python `sorted(set(l))`: the strictly ascending list of the distinct
elements of `l`. -/
def sortDedup (l : List Nat) : List Nat := l.foldl (fun acc x => sinsert x acc) []

/-- The month anchors of the range (main.py line 101):
`sorted(set(strptime(d.split("T")[0]).replace(day=1) for d in target_dates))`.
The source recovers each date by splitting its night-key string at `"T"` and
reparsing `%Y-%m-%d`; since the key format round-trips the date, this
embedding truncates the underlying day number directly. -/
def monthAnchors (s e : Nat) : List Nat := sortDedup ((datesOf s e).map firstOfMonth)

/-! ### Data model of upstream month payloads -/

/-- One site's payload inside a month response: the optional `"site"` display
name and the `"availabilities"` mapping NightKey → status string. -/
structure SiteInfo where
  mk :: (site : Option String) (availabilities : List (String × String))
deriving DecidableEq, Repr

/-- A month response's `"campsites"` mapping: site identifier → SiteInfo. -/
abbrev MonthData := List (String × SiteInfo)

/-- The upstream fetch, as an oracle: campground identifier and month-anchor
date to either a month payload or a failure cause (network error, bad
status, malformed body). -/
abbrev Fetch := String → Nat → Except String MonthData

/-! ### Campground directory (main.py lines 8-21, 95-97) -/

def CAMPGROUND_LOOKUP : List (String × String) :=
  [("232369", "Camp Dick"), ("232462", "Glacier Basin"), ("232281", "Olive Ridge"),
   ("232368", "Peaceful Valley"), ("232280", "Kelly Dahl"), ("232282", "Pawnee Campground"),
   ("231862", "Stillwater Campground"), ("231861", "Green Ridge Campground"),
   ("232463", "Moraine Park Campground"), ("233187", "Aspenglen Campground"),
   ("260552", "Timber Creek Campground"), ("231860", "Arapaho Bay Campground")]

/-- ASCII lowercasing of one character (`str.lower` restricted to the ASCII
range, which covers the directory and any ASCII caller input). -/
def lowerChar (c : Char) : Char :=
  if 'A' ≤ c ∧ c ≤ 'Z' then Char.ofNat (c.toNat + 32) else c

def asciiLower (s : String) : String := String.mk (s.data.map lowerChar)

/-- `name_to_id = {v.lower(): k for k, v in CAMPGROUND_LOOKUP.items()}`. -/
def nameToId : List (String × String) :=
  CAMPGROUND_LOOKUP.foldl (fun acc kv => dinsert (asciiLower kv.2) kv.1 acc) []

/-- `name_to_id.get(name.lower())` (main.py line 97).  Every identifier in
the directory is a non-empty string, so the Python falsy test
`if not campgroundId` coincides with the `none` test. -/
def resolveId (name : String) : Option String := dfind nameToId (asciiLower name)

/-! ### AvailabilityMerger (main.py lines 114-118) -/

/-- Merge one site of a month payload into the accumulated per-site map:
a new site identifier is stored whole; an existing one has its
availabilities updated (later month wins per key), keeping its first-seen
display name. -/
def mergeSite (acc : MonthData) (kv : String × SiteInfo) : MonthData :=
  match dfind acc kv.1 with
  | none => dinsert kv.1 kv.2 acc
  | some prev =>
      dinsert kv.1 (SiteInfo.mk prev.site (dupdate prev.availabilities kv.2.availabilities)) acc

/-- Merge one month's `campsites` payload into the accumulator. -/
def mergeStep (acc : MonthData) (m : MonthData) : MonthData := m.foldl mergeSite acc

/-- Merge a fetch-ordered list of month payloads, starting from the empty
map (`all_avail_data = {}`). -/
def mergeMonths (ms : List MonthData) : MonthData := ms.foldl mergeStep []

/-! ### SiteClassifier (main.py lines 127-139) -/

/-- `all_avail.get(date, "Missing")`: the status of one requested night. -/
def nightStatus (info : SiteInfo) (date : String) : String :=
  (dfind info.availabilities date).getD "Missing"

/-- `status.startswith("Available") or status.startswith("Open")`. -/
def isAvailStatus (st : String) : Bool :=
  List.isPrefixOf "Available".data st.data || List.isPrefixOf "Open".data st.data

/-- `sum(1 for date in target_dates if ...)`: the number of requested nights
whose status counts as available. -/
def availCount (info : SiteInfo) (targetDates : List String) : Nat :=
  targetDates.countP (fun d => isAvailStatus (nightStatus info d))

/-- `site_data.get("site", f"Site {site_id}")`. -/
def siteName (siteId : String) (info : SiteInfo) : String :=
  info.site.getD ("Site " ++ siteId)

/-- The summary label `f"{site_name} ({available_nights} nights)"`. -/
def siteLabel (siteId : String) (info : SiteInfo) (targetDates : List String) : String :=
  siteName siteId info ++ " (" ++ toString (availCount info targetDates) ++ " nights)"

/-- State of the classification loop: the two summary lists plus the global
`all_sites` index. -/
structure ClassifyState where
  mk :: (fullSites : List String) (partSites : List String) (allSites : List (String × String))
deriving DecidableEq, Repr

/-- Body of the classification loop (main.py lines 127-139) for one site. -/
def classifyStep (targetDates : List String) (st : ClassifyState) (kv : String × SiteInfo) :
    ClassifyState :=
  let k := availCount kv.2 targetDates
  let lbl := siteLabel kv.1 kv.2 targetDates
  let full := if k = targetDates.length then st.fullSites ++ [lbl] else st.fullSites
  let part :=
    if k = targetDates.length then st.partSites
    else if 0 < k then st.partSites ++ [lbl] else st.partSites
  ClassifyState.mk full part (dinsert kv.1 (siteName kv.1 kv.2) st.allSites)

/-- The classification loop over the merged per-site map, in its iteration
order, threading the global `all_sites` index. -/
def classify (allAvail : MonthData) (targetDates : List String)
    (allSites : List (String × String)) : ClassifyState :=
  allAvail.foldl (classifyStep targetDates) (ClassifyState.mk [] [] allSites)

/-! ### CampgroundResolver and ResultAggregator (main.py lines 92-148) -/

/-- One entry of the final aggregate: an error payload, a success payload,
or the reserved `all_sites` index entry. -/
inductive Entry where
  | error (msg : String)
  | success (campgroundName : String) (targetDates : List String)
      (fullSites : List String) (partSites : List String)
  | index (sites : List (String × String))
deriving DecidableEq, Repr

/-- Body of the month loop (main.py lines 104-121): a successful fetch is
merged; a failed one writes an error entry keyed by the resolved identifier
and continues with the next month. -/
def fetchMonth (fetch : Fetch) (cid : String)
    (st : MonthData × List (String × Entry)) (m : Nat) :
    MonthData × List (String × Entry) :=
  match fetch cid m with
  | Except.ok monthData => (mergeStep st.1 monthData, st.2)
  | Except.error cause =>
      (st.1,
       dinsert cid (Entry.error ("Failed to fetch month " ++ monthKey m ++ ": " ++ cause)) st.2)

/-- State threaded through the per-name loop: the results dict and the
global `all_sites` index. -/
structure ReqState where
  mk :: (results : List (String × Entry)) (allSites : List (String × String))
deriving Repr

/-- Body of the per-campground loop (main.py lines 96-146): resolve the
name; on failure write the unknown-name error keyed by the supplied name,
otherwise fetch and merge every required month, classify, and write the
success payload keyed by the resolved identifier (unconditionally, so it
overwrites any fetch-failure error recorded for the same key). -/
def processName (fetch : Fetch) (s e : Nat) (st : ReqState) (name : String) : ReqState :=
  match resolveId name with
  | none => ReqState.mk (dinsert name (Entry.error "Unknown campground name") st.results) st.allSites
  | some cid =>
      let fr := (monthAnchors s e).foldl (fetchMonth fetch cid) ([], st.results)
      let cname := (dfind CAMPGROUND_LOOKUP cid).getD ("Campground " ++ cid)
      let cs := classify fr.1 (daterange s e) st.allSites
      ReqState.mk
        (dinsert cid (Entry.success cname (daterange s e) cs.fullSites cs.partSites) fr.2)
        cs.allSites

/-- `get_availability` (main.py lines 77-148), after date parsing: process
every requested name in order, then store the global site index under the
reserved key `"all_sites"`. -/
def getAvailability (names : List String) (s e : Nat) (fetch : Fetch) :
    List (String × Entry) :=
  let st := names.foldl (processName fetch s e) (ReqState.mk [] [])
  dinsert "all_sites" (Entry.index st.allSites) st.results

/-! ### Concrete instances used by counterexamples and witnesses -/

def aug1 : Nat := toDay 2025 8 1

def aug2 : Nat := toDay 2025 8 2

/-- An upstream month payload with site A1 available on both August nights
and site A2 available only on the first. -/
def sampleMonth : MonthData :=
  [("111", SiteInfo.mk (some "A1")
      [("2025-08-01T00:00:00Z", "Available"), ("2025-08-02T00:00:00Z", "Available")]),
   ("222", SiteInfo.mk (some "A2")
      [("2025-08-01T00:00:00Z", "Available"), ("2025-08-02T00:00:00Z", "Reserved")])]

def sampleFetch : Fetch := fun _ _ => Except.ok sampleMonth

def okFetch : Fetch := fun _ _ => Except.ok []

def failFetch : Fetch := fun _ _ => Except.error "boom"

/-- A site record with a display name and no availability data. -/
def looseSite : SiteInfo := SiteInfo.mk (some "A1") []

/-- A site record with no display name and no availability data. -/
def bareSite : SiteInfo := SiteInfo.mk none []

/-- Site A1's record, available on both August nights. -/
def fullSite : SiteInfo :=
  SiteInfo.mk (some "A1")
    [("2025-08-01T00:00:00Z", "Available"), ("2025-08-02T00:00:00Z", "Available")]

/-! ### Claim C1 -/

/-- C1: the claim states that a failed month fetch leaves an error entry
keyed by the resolved identifier and skips the campground's classification.
The code does record such an error (main.py line 120) but then `continue`s
with the month loop and unconditionally overwrites the same key with a
success payload (lines 141-146): with every fetch failing, the aggregate
for Camp Dick holds a success payload with empty site lists and no error
entry at all. -/
theorem c1_fetch_failure_entry_overwritten :
    getAvailability ["Camp Dick"] aug1 aug2 failFetch =
      [("232369",
        Entry.success "Camp Dick" ["2025-08-01T00:00:00Z", "2025-08-02T00:00:00Z"] [] []),
       ("all_sites", Entry.index [])] := by
  decide

/-! ### Claim C2 -/

/-- C2 counterexample: with an empty requested night-key sequence (n = 0)
a site has k = 0 available nights yet is appended to the fully-available
list, contradicting the claim's clause that a site with k = 0 appears in
neither list. -/
theorem c2_zero_nights_counterexample :
    availCount looseSite [] = 0 ∧
    (classify [("1", looseSite)] [] []).fullSites = ["A1 (0 nights)"] := by
  decide

/-- C2 (amended with n > 0 in the k = 0 clause): for every merged site
record and requested night-key sequence of length n with k nights counted
available, k = n > 0 lists the site exactly as fully available with label
"site_name (k nights)"; 0 < k < n lists it exactly as partially available
with the same label; and k = 0 < n lists it in neither list. -/
theorem c2_classification (siteId : String) (info : SiteInfo) (td : List String)
    (k n : Nat) (hk : k = availCount info td) (hn : n = td.length) :
    (k = n → 0 < n →
      (classify [(siteId, info)] td []).fullSites =
        [siteName siteId info ++ " (" ++ toString k ++ " nights)"] ∧
      (classify [(siteId, info)] td []).partSites = []) ∧
    (0 < k → k < n →
      (classify [(siteId, info)] td []).fullSites = [] ∧
      (classify [(siteId, info)] td []).partSites =
        [siteName siteId info ++ " (" ++ toString k ++ " nights)"]) ∧
    (k = 0 → 0 < n →
      (classify [(siteId, info)] td []).fullSites = [] ∧
      (classify [(siteId, info)] td []).partSites = []) := by
  subst hk; subst hn
  refine ⟨fun h1 h2 => ?_, fun h1 h2 => ?_, fun h1 h2 => ?_⟩
  · constructor <;> simp [classify, classifyStep, h1, siteLabel]
  · have hne : ¬ availCount info td = td.length := by omega
    constructor <;> simp [classify, classifyStep, hne, h1, siteLabel]
  · have hne : ¬ availCount info td = td.length := by omega
    have hz : ¬ 0 < availCount info td := by omega
    constructor <;> simp [classify, classifyStep, hne, hz]

/-- Witness for C2: site A1, available on both requested August nights,
is listed exactly as fully available with label "A1 (2 nights)". -/
theorem c2_classification_witness :
    (classify [("111", fullSite)] (daterange aug1 aug2) []).fullSites = ["A1 (2 nights)"] ∧
    (classify [("111", fullSite)] (daterange aug1 aug2) []).partSites = [] := by
  have h := (c2_classification "111" fullSite (daterange aug1 aug2) 2 2
    (by decide) (by decide)).1 rfl (by decide)
  refine ⟨?_, h.2⟩
  rw [h.1]
  decide

/-! ### Claim C3 -/

/-- C3 counterexample: with no requested nights, every requested night is
vacuously "Missing", yet the site is listed as fully available rather than
excluded from both lists. -/
theorem c3_missing_counterexample :
    (([] : List String).all (fun d => nightStatus bareSite d == "Missing")) = true ∧
    (classify [("7", bareSite)] [] []).fullSites ≠ [] := by
  decide

/-- C3 (amended to require at least one requested night for the exclusion
consequence): the classifier takes each requested night's status from the
merged record with sentinel "Missing" when absent; a night counts as
available exactly when its status string has literal prefix "Available" or
"Open" (case-sensitive prefix match, not equality); hence a site with at
least one requested night, all of whose requested nights are "Missing", is
excluded from both lists. -/
theorem c3_availability_predicate :
    (∀ st : String, isAvailStatus st = true ↔
      ("Available".data <+: st.data ∨ "Open".data <+: st.data)) ∧
    (∀ info d, nightStatus info d = (dfind info.availabilities d).getD "Missing") ∧
    (∀ siteId info (td : List String), 0 < td.length →
      (∀ d, d ∈ td → nightStatus info d = "Missing") →
      (classify [(siteId, info)] td []).fullSites = [] ∧
      (classify [(siteId, info)] td []).partSites = []) := by
  refine ⟨?_, fun info d => rfl, ?_⟩
  · intro st
    simp [isAvailStatus, List.isPrefixOf_iff_prefix]
  · intro siteId info td hlen hmiss
    have hz : availCount info td = 0 := by
      rw [availCount, List.countP_eq_zero]
      intro d hd
      rw [hmiss d hd]
      decide
    have hne : ¬ availCount info td = td.length := by omega
    have hpos : ¬ 0 < availCount info td := by omega
    constructor <;> simp [classify, classifyStep, hne, hpos]

/-- Witness for C3: a site with no availability data is "Missing" on the
one requested night and lands in neither list. -/
theorem c3_availability_predicate_witness :
    (classify [("7", bareSite)] ["2025-08-01T00:00:00Z"] []).fullSites = [] ∧
    (classify [("7", bareSite)] ["2025-08-01T00:00:00Z"] []).partSites = [] :=
  c3_availability_predicate.2.2 "7" bareSite ["2025-08-01T00:00:00Z"]
    (by decide) (by decide)

/-! ### Claim C4 -/

theorem rangeLen_of_le (s e : Nat) (h : s ≤ e) : rangeLen s e = (e - s) + 1 := by
  rw [rangeLen]; omega

theorem datesOf_get (s e i : Nat) (hi : i < (datesOf s e).length) :
    (datesOf s e).get ⟨i, hi⟩ = s + i := by
  simp [datesOf]

/-- C4: for start ≤ end, the expansion produces exactly (end - start) + 1
night keys, each the midnight-UTC timestamp string of one date, with the
underlying dates starting at the start date, strictly ascending, and each
exactly one day after the previous. -/
theorem c4_daterange (s e : Nat) (h : s ≤ e) :
    (daterange s e).length = (e - s) + 1 ∧
    daterange s e = (datesOf s e).map nightKey ∧
    (∀ i (hi : i < (datesOf s e).length), (datesOf s e).get ⟨i, hi⟩ = s + i) ∧
    List.Pairwise (fun a b => a < b) (datesOf s e) ∧
    (∀ i (hi : i < (datesOf s e).length) (hi1 : i + 1 < (datesOf s e).length),
      (datesOf s e).get ⟨i + 1, hi1⟩ = (datesOf s e).get ⟨i, hi⟩ + 1) := by
  refine ⟨?_, rfl, datesOf_get s e, ?_, ?_⟩
  · simp [daterange, datesOf, rangeLen_of_le s e h]
  · rw [List.pairwise_iff_getElem]
    intro i j hi hj hij
    have h1 : (datesOf s e).get ⟨i, hi⟩ = s + i := datesOf_get s e i hi
    have h2 : (datesOf s e).get ⟨j, hj⟩ = s + j := datesOf_get s e j hj
    simp only [List.get_eq_getElem] at h1 h2
    omega
  · intro i hi hi1
    have h1 := datesOf_get s e i hi
    have h2 := datesOf_get s e (i + 1) hi1
    omega

/-- Witness for C4 at the concrete range 2025-08-01 through 2025-08-02. -/
theorem c4_daterange_witness :
    (daterange aug1 aug2).length = (aug2 - aug1) + 1 ∧
    daterange aug1 aug2 = ["2025-08-01T00:00:00Z", "2025-08-02T00:00:00Z"] :=
  ⟨(c4_daterange aug1 aug2 (by decide)).1, by decide⟩

/-! ### Claim C8 -/

theorem mem_sinsert (a x : Nat) (l : List Nat) : a ∈ sinsert x l ↔ a = x ∨ a ∈ l := by
  induction l with
  | nil => simp [sinsert]
  | cons y t ih =>
    rw [sinsert]
    by_cases h1 : x < y
    · rw [if_pos h1]
      simp only [List.mem_cons]
    · rw [if_neg h1]
      by_cases h2 : x = y
      · rw [if_pos h2]
        subst h2
        simp only [List.mem_cons]
        tauto
      · rw [if_neg h2]
        simp only [List.mem_cons, ih]
        tauto

theorem sorted_sinsert (x : Nat) (l : List Nat)
    (h : List.Pairwise (fun a b => a < b) l) :
    List.Pairwise (fun a b => a < b) (sinsert x l) := by
  induction l with
  | nil => simp [sinsert]
  | cons y t ih =>
    rw [List.pairwise_cons] at h
    by_cases h1 : x < y
    · simp only [sinsert, if_pos h1]
      refine List.Pairwise.cons ?_ (List.Pairwise.cons h.1 h.2)
      intro b hb
      rcases List.mem_cons.mp hb with rfl | hbt
      · exact h1
      · exact lt_trans h1 (h.1 b hbt)
    · by_cases h2 : x = y
      · simp only [sinsert, if_neg h1, if_pos h2]
        exact List.Pairwise.cons h.1 h.2
      · simp only [sinsert, if_neg h1, if_neg h2]
        refine List.Pairwise.cons ?_ (ih h.2)
        intro b hb
        rcases (mem_sinsert b x t).mp hb with rfl | hbt
        · omega
        · exact h.1 b hbt

theorem mem_sortDedup_aux (l acc : List Nat) (a : Nat) :
    a ∈ l.foldl (fun acc x => sinsert x acc) acc ↔ a ∈ acc ∨ a ∈ l := by
  induction l generalizing acc with
  | nil => simp
  | cons x t ih =>
    simp only [List.foldl_cons, ih, mem_sinsert, List.mem_cons]
    tauto

theorem sorted_sortDedup_aux (l acc : List Nat)
    (h : List.Pairwise (fun a b => a < b) acc) :
    List.Pairwise (fun a b => a < b) (l.foldl (fun acc x => sinsert x acc) acc) := by
  induction l generalizing acc with
  | nil => simpa
  | cons x t ih => exact ih _ (sorted_sinsert x acc h)

/-- C8: the queried month anchors are exactly the distinct first-of-month
dates of the range's nights, duplicate-free and in strictly ascending
(processing) order; the range 2025-08-30 through 2025-09-02 yields exactly
the anchors 2025-08-01 and 2025-09-01. -/
theorem c8_month_anchors :
    (∀ s e, List.Pairwise (fun a b => a < b) (monthAnchors s e)) ∧
    (∀ s e a, a ∈ monthAnchors s e ↔ ∃ d, d ∈ datesOf s e ∧ firstOfMonth d = a) ∧
    monthAnchors (toDay 2025 8 30) (toDay 2025 9 2) = [toDay 2025 8 1, toDay 2025 9 1] := by
  refine ⟨?_, ?_, by decide⟩
  · intro s e
    exact sorted_sortDedup_aux _ [] List.Pairwise.nil
  · intro s e a
    rw [monthAnchors, sortDedup, mem_sortDedup_aux]
    simp [List.mem_map]

/-! ### Claim C5 -/

/-- The merged availability status of site `sid` at night `nk` in a
per-site map. -/
def availOf (d : MonthData) (sid nk : String) : Option String :=
  (dfind d sid).bind (fun i => dfind i.availabilities nk)

/-- The status for (sid, nk) taken from the latest month in fetch order
that carries it: the specification's merge rule. -/
def lastVal (ms : List MonthData) (sid nk : String) : Option String :=
  ms.foldl (fun acc m => (availOf m sid nk).orElse (fun _ => acc)) none

/-- Well-formedness of a month payload as decoded from JSON: its site map
and each site's availability map have no duplicate keys. -/
def WFMonth (m : MonthData) : Prop :=
  NodupKeys m ∧ ∀ kv, kv ∈ m → NodupKeys kv.2.availabilities

instance (m : MonthData) : Decidable (WFMonth m) := by
  unfold WFMonth NodupKeys
  infer_instance

theorem dfind_mergeSite_self (acc : MonthData) (kv : String × SiteInfo) :
    dfind (mergeSite acc kv) kv.1 =
      some (match dfind acc kv.1 with
        | none => kv.2
        | some prev =>
            SiteInfo.mk prev.site (dupdate prev.availabilities kv.2.availabilities)) := by
  cases h : dfind acc kv.1 with
  | none => simp [mergeSite, h, dfind_dinsert]
  | some prev => simp [mergeSite, h, dfind_dinsert]

theorem dfind_mergeSite_ne (acc : MonthData) (kv : String × SiteInfo) (s : String)
    (hs : s ≠ kv.1) : dfind (mergeSite acc kv) s = dfind acc s := by
  cases h : dfind acc kv.1 with
  | none => simp [mergeSite, h, dfind_dinsert, hs]
  | some prev => simp [mergeSite, h, dfind_dinsert, hs]

theorem dfind_mergeStep (acc m : MonthData) (s : String) (hm : NodupKeys m) :
    dfind (mergeStep acc m) s =
      match dfind m s, dfind acc s with
      | none, o => o
      | some info, none => some info
      | some info, some prev =>
          some (SiteInfo.mk prev.site (dupdate prev.availabilities info.availabilities)) := by
  induction m generalizing acc with
  | nil =>
    cases h : dfind acc s <;> simp [mergeStep, dfind, h]
  | cons hd tl ih =>
    obtain ⟨k0, v0⟩ := hd
    rw [NodupKeys, List.map_cons, List.nodup_cons] at hm
    have step : mergeStep acc ((k0, v0) :: tl) = mergeStep (mergeSite acc (k0, v0)) tl := rfl
    rw [step, ih _ hm.2]
    by_cases hs : s = k0
    · subst hs
      rw [dfind_eq_none_of_not_mem tl s hm.1]
      have hfind : dfind ((s, v0) :: tl) s = some v0 := by simp [dfind]
      rw [hfind]
      have hself := dfind_mergeSite_self acc (s, v0)
      cases hacc : dfind acc s with
      | none => rw [hacc] at hself; simpa using hself
      | some prev => rw [hacc] at hself; simpa using hself
    · have hfind : dfind ((k0, v0) :: tl) s = dfind tl s := by simp [dfind, hs]
      rw [hfind, dfind_mergeSite_ne acc (k0, v0) s hs]

theorem isSome_dfind_mergeStep (acc m : MonthData) (s : String) (hm : NodupKeys m) :
    (dfind (mergeStep acc m) s).isSome ↔
      (dfind m s).isSome ∨ (dfind acc s).isSome := by
  rw [dfind_mergeStep acc m s hm]
  cases dfind m s <;> cases dfind acc s <;> simp

theorem availOf_mergeStep (acc m : MonthData) (sid nk : String) (hm : WFMonth m) :
    availOf (mergeStep acc m) sid nk =
      (availOf m sid nk).orElse (fun _ => availOf acc sid nk) := by
  rw [availOf, dfind_mergeStep acc m sid hm.1]
  cases hms : dfind m sid with
  | none => simp [availOf, hms, Option.orElse]
  | some info =>
    cases hacc : dfind acc sid with
    | none =>
      cases hnk : dfind info.availabilities nk <;>
        simp [availOf, hms, hacc, hnk, Option.orElse]
    | some prev =>
      have hnd : NodupKeys info.availabilities :=
        hm.2 (sid, info) (mem_of_dfind_eq_some m sid info hms)
      cases hnk : dfind info.availabilities nk <;>
        simp [availOf, hms, hacc, hnk, Option.orElse,
          dfind_dupdate prev.availabilities info.availabilities nk hnd]

theorem availOf_merge_fold (ms : List MonthData) (acc : MonthData) (sid nk : String)
    (hwf : ∀ m, m ∈ ms → WFMonth m) :
    availOf (ms.foldl mergeStep acc) sid nk =
      ms.foldl (fun a m => (availOf m sid nk).orElse (fun _ => a)) (availOf acc sid nk) := by
  induction ms generalizing acc with
  | nil => rfl
  | cons m tl ih =>
    rw [List.foldl_cons, List.foldl_cons,
      ih (mergeStep acc m) (fun x hx => hwf x (List.mem_cons_of_mem m hx)),
      availOf_mergeStep acc m sid nk (hwf m (List.mem_cons_self m tl))]

theorem isSome_merge_fold (ms : List MonthData) (acc : MonthData) (sid : String)
    (hwf : ∀ m, m ∈ ms → WFMonth m) :
    (dfind (ms.foldl mergeStep acc) sid).isSome ↔
      (∃ m, m ∈ ms ∧ (dfind m sid).isSome) ∨ (dfind acc sid).isSome := by
  induction ms generalizing acc with
  | nil => simp
  | cons m tl ih =>
    rw [List.foldl_cons,
      ih (mergeStep acc m) (fun x hx => hwf x (List.mem_cons_of_mem m hx)),
      isSome_dfind_mergeStep acc m sid (hwf m (List.mem_cons_self m tl)).1]
    constructor
    · rintro (⟨x, hx, hs⟩ | (hs | hs))
      · exact Or.inl ⟨x, List.mem_cons_of_mem m hx, hs⟩
      · exact Or.inl ⟨m, List.mem_cons_self m tl, hs⟩
      · exact Or.inr hs
    · rintro (⟨x, hx, hs⟩ | hs)
      · rcases List.mem_cons.mp hx with rfl | hx
        · exact Or.inr (Or.inl hs)
        · exact Or.inl ⟨x, hx, hs⟩
      · exact Or.inr (Or.inr hs)

theorem isSome_lastVal_fold (ms : List MonthData) (acc : Option String) (sid nk : String) :
    (ms.foldl (fun a m => (availOf m sid nk).orElse (fun _ => a)) acc).isSome ↔
      (∃ m, m ∈ ms ∧ (availOf m sid nk).isSome) ∨ acc.isSome := by
  induction ms generalizing acc with
  | nil => simp
  | cons m tl ih =>
    rw [List.foldl_cons, ih]
    have hstep : ((availOf m sid nk).orElse (fun _ => acc)).isSome ↔
        (availOf m sid nk).isSome ∨ acc.isSome := by
      cases availOf m sid nk <;> cases acc <;> simp [Option.orElse]
    rw [hstep]
    constructor
    · rintro (⟨x, hx, hs⟩ | (hs | hs))
      · exact Or.inl ⟨x, List.mem_cons_of_mem m hx, hs⟩
      · exact Or.inl ⟨m, List.mem_cons_self m tl, hs⟩
      · exact Or.inr hs
    · rintro (⟨x, hx, hs⟩ | hs)
      · rcases List.mem_cons.mp hx with rfl | hx
        · exact Or.inr (Or.inl hs)
        · exact Or.inl ⟨x, hx, hs⟩
      · exact Or.inr (Or.inr hs)

/-- C5: for well-formed month payloads, a site identifier is present in the
merge exactly when it appears in some month; and the merged status of each
(site, night) pair is the union of the per-month mappings with the later
month in fetch order overwriting the earlier on a key collision. -/
theorem c5_merge_union_last_wins (ms : List MonthData)
    (hwf : ∀ m, m ∈ ms → WFMonth m) (sid nk : String) :
    ((dfind (mergeMonths ms) sid).isSome ↔ ∃ m, m ∈ ms ∧ (dfind m sid).isSome) ∧
    availOf (mergeMonths ms) sid nk = lastVal ms sid nk ∧
    ((availOf (mergeMonths ms) sid nk).isSome ↔
      ∃ m, m ∈ ms ∧ (availOf m sid nk).isSome) := by
  have h1 := isSome_merge_fold ms [] sid hwf
  have h2 := availOf_merge_fold ms [] sid nk hwf
  have h3 := isSome_lastVal_fold ms none sid nk
  have hnil : availOf ([] : MonthData) sid nk = none := rfl
  rw [hnil] at h2
  refine ⟨?_, ?_, ?_⟩
  · show (dfind (ms.foldl mergeStep []) sid).isSome ↔ _
    rw [h1]
    simp [dfind]
  · show availOf (ms.foldl mergeStep []) sid nk = _
    rw [h2]
    rfl
  · show (availOf (ms.foldl mergeStep []) sid nk).isSome ↔ _
    rw [h2, h3]
    simp

/-- A September payload for the same two sites, night-disjoint from
`sampleMonth`. -/
def sampleSept : MonthData :=
  [("111", SiteInfo.mk (some "A1") [("2025-09-01T00:00:00Z", "Open")]),
   ("222", SiteInfo.mk (some "A2") [("2025-09-01T00:00:00Z", "Reserved")])]

/-- Witness for C5 on two concrete months. -/
theorem c5_merge_union_last_wins_witness :
    availOf (mergeMonths [sampleMonth, sampleSept]) "111" "2025-09-01T00:00:00Z" =
      lastVal [sampleMonth, sampleSept] "111" "2025-09-01T00:00:00Z" :=
  (c5_merge_union_last_wins [sampleMonth, sampleSept] (by decide)
    "111" "2025-09-01T00:00:00Z").2.1

/-! ### Claim C9 -/

/-- Two month payloads have pairwise disjoint night-key sets per site. -/
def disjointMonths (m1 m2 : MonthData) : Prop :=
  ∀ kv1, kv1 ∈ m1 → ∀ kv2, kv2 ∈ m2 → kv1.1 = kv2.1 →
    ∀ a1, a1 ∈ kv1.2.availabilities → ∀ a2, a2 ∈ kv2.2.availabilities → a1.1 ≠ a2.1

instance (m1 m2 : MonthData) : Decidable (disjointMonths m1 m2) := by
  unfold disjointMonths
  infer_instance

/-- C9: for months with pairwise disjoint per-site night keys, merging
[A, B] and then adding C is the same per-site map as merging [A, B, C] in
one pass (the incremental merge loop is exactly the one-pass fold). -/
theorem c9_merge_incremental (A B C : MonthData)
    (h1 : disjointMonths A B) (h2 : disjointMonths A C) (h3 : disjointMonths B C) :
    mergeStep (mergeMonths [A, B]) C = mergeMonths [A, B, C] := rfl

/-- An October payload for site 111, night-disjoint from the others. -/
def sampleOct : MonthData :=
  [("111", SiteInfo.mk (some "A1") [("2025-10-01T00:00:00Z", "Not Available")])]

/-- Witness for C9 on three concrete pairwise-disjoint months. -/
theorem c9_merge_incremental_witness :
    mergeStep (mergeMonths [sampleMonth, sampleSept]) sampleOct =
      mergeMonths [sampleMonth, sampleSept, sampleOct] :=
  c9_merge_incremental sampleMonth sampleSept sampleOct
    (by decide) (by decide) (by decide)

/-! ### Per-campground entry characterization (used by C6, C7, C10) -/

/-- The key under which a requested name's entry is stored: the resolved
identifier when the name resolves, the literal supplied name otherwise. -/
def keyOf (name : String) : String := (resolveId name).getD name

/-- The per-site map obtained by fetching and merging every required month
for one campground; a failed month contributes nothing. -/
def fetchedAvail (fetch : Fetch) (cid : String) (s e : Nat) : MonthData :=
  (monthAnchors s e).foldl
    (fun acc m =>
      match fetch cid m with
      | Except.ok md => mergeStep acc md
      | Except.error _ => acc) []

/-- The success payload the campground loop ends up writing for a resolved
identifier (main.py lines 141-146). -/
def successFor (fetch : Fetch) (s e : Nat) (cid : String) : Entry :=
  Entry.success ((dfind CAMPGROUND_LOOKUP cid).getD ("Campground " ++ cid)) (daterange s e)
    (classify (fetchedAvail fetch cid s e) (daterange s e) []).fullSites
    (classify (fetchedAvail fetch cid s e) (daterange s e) []).partSites

/-- The aggregate entry that one requested name's own processing produces,
as a function of that name and the fetch oracle alone. -/
def entryFor (fetch : Fetch) (s e : Nat) (name : String) : Entry :=
  match resolveId name with
  | none => Entry.error "Unknown campground name"
  | some cid => successFor fetch s e cid

theorem classify_lists_indep (l : MonthData) (td : List String) (st1 st2 : ClassifyState)
    (hf : st1.fullSites = st2.fullSites) (hp : st1.partSites = st2.partSites) :
    (l.foldl (classifyStep td) st1).fullSites = (l.foldl (classifyStep td) st2).fullSites ∧
    (l.foldl (classifyStep td) st1).partSites = (l.foldl (classifyStep td) st2).partSites := by
  induction l generalizing st1 st2 with
  | nil => exact ⟨hf, hp⟩
  | cons kv tl ih =>
    rw [List.foldl_cons, List.foldl_cons]
    apply ih
    · simp [classifyStep, hf]
    · simp [classifyStep, hp]

theorem classify_fullSites_indep (l : MonthData) (td : List String)
    (as : List (String × String)) :
    (classify l td as).fullSites = (classify l td []).fullSites :=
  (classify_lists_indep l td (ClassifyState.mk [] [] as) (ClassifyState.mk [] [] []) rfl rfl).1

theorem classify_partSites_indep (l : MonthData) (td : List String)
    (as : List (String × String)) :
    (classify l td as).partSites = (classify l td []).partSites :=
  (classify_lists_indep l td (ClassifyState.mk [] [] as) (ClassifyState.mk [] [] []) rfl rfl).2

theorem fetch_fold_fst (fetch : Fetch) (cid : String) (ms : List Nat)
    (av : MonthData) (res : List (String × Entry)) :
    (ms.foldl (fetchMonth fetch cid) (av, res)).1 =
      ms.foldl
        (fun acc m =>
          match fetch cid m with
          | Except.ok md => mergeStep acc md
          | Except.error _ => acc) av := by
  induction ms generalizing av res with
  | nil => rfl
  | cons m tl ih =>
    rw [List.foldl_cons, List.foldl_cons]
    cases h : fetch cid m with
    | ok md =>
      simp only [fetchMonth, h]
      exact ih _ _
    | error cause =>
      simp only [fetchMonth, h]
      exact ih _ _

theorem fetch_fold_snd (fetch : Fetch) (cid : String) (ms : List Nat)
    (av : MonthData) (res : List (String × Entry)) (k : String) (hk : k ≠ cid) :
    dfind (ms.foldl (fetchMonth fetch cid) (av, res)).2 k = dfind res k := by
  induction ms generalizing av res with
  | nil => rfl
  | cons m tl ih =>
    rw [List.foldl_cons]
    cases h : fetch cid m with
    | ok md =>
      simp only [fetchMonth, h]
      exact ih _ _
    | error cause =>
      simp only [fetchMonth, h]
      rw [ih _ _, dfind_dinsert]
      simp [hk]

theorem processName_results (fetch : Fetch) (s e : Nat) (st : ReqState) (name : String)
    (k : String) :
    dfind (processName fetch s e st name).results k =
      if k = keyOf name then some (entryFor fetch s e name)
      else dfind st.results k := by
  cases hres : resolveId name with
  | none =>
    have hkey : keyOf name = name := by simp [keyOf, hres]
    have hent : entryFor fetch s e name = Entry.error "Unknown campground name" := by
      simp [entryFor, hres]
    simp only [processName, hres]
    rw [dfind_dinsert, hkey, hent]
  | some cid =>
    have hkey : keyOf name = cid := by simp [keyOf, hres]
    have hent : entryFor fetch s e name = successFor fetch s e cid := by
      simp [entryFor, hres]
    simp only [processName, hres]
    rw [dfind_dinsert, hkey, hent]
    by_cases hk : k = cid
    · rw [if_pos hk, if_pos hk]
      rw [fetch_fold_fst fetch cid (monthAnchors s e) [] st.results]
      rw [classify_fullSites_indep, classify_partSites_indep]
      rfl
    · rw [if_neg hk, if_neg hk]
      exact fetch_fold_snd fetch cid (monthAnchors s e) [] st.results k hk

theorem foldl_processName_preserve (fetch : Fetch) (s e : Nat) (L : List String)
    (st : ReqState) (k : String) (v : Entry)
    (hcoh : ∀ n, n ∈ L → keyOf n = k → entryFor fetch s e n = v)
    (hst : dfind st.results k = some v) :
    dfind ((L.foldl (processName fetch s e) st)).results k = some v := by
  induction L generalizing st with
  | nil => exact hst
  | cons n t ih =>
    rw [List.foldl_cons]
    refine ih _ (fun x hx hk => hcoh x (List.mem_cons_of_mem n hx) hk) ?_
    rw [processName_results]
    by_cases hk : k = keyOf n
    · rw [if_pos hk, hcoh n (List.mem_cons_self n t) hk.symm]
    · rw [if_neg hk]
      exact hst

theorem foldl_processName_mem (fetch : Fetch) (s e : Nat) (L : List String)
    (st : ReqState) (n : String) (hn : n ∈ L)
    (hcoh : ∀ a b, a ∈ L → b ∈ L → keyOf a = keyOf b →
      entryFor fetch s e a = entryFor fetch s e b) :
    dfind ((L.foldl (processName fetch s e) st)).results (keyOf n) =
      some (entryFor fetch s e n) := by
  induction L generalizing st with
  | nil => cases hn
  | cons m t ih =>
    rcases List.mem_cons.mp hn with rfl | hnt
    · rw [List.foldl_cons]
      apply foldl_processName_preserve
      · intro x hx hkx
        exact hcoh x n (List.mem_cons_of_mem n hx) (List.mem_cons_self n t) hkx
      · rw [processName_results, if_pos rfl]
    · rw [List.foldl_cons]
      exact ih _ hnt
        (fun a b ha hb => hcoh a b (List.mem_cons_of_mem m ha) (List.mem_cons_of_mem m hb))

theorem resolveId_ne_all_sites (n cid : String) (h : resolveId n = some cid) :
    cid ≠ "all_sites" := by
  have hm := mem_snd_of_dfind nameToId (asciiLower n) cid h
  have hall : ∀ x, x ∈ nameToId.map Prod.snd → x ≠ "all_sites" := by decide
  exact hall cid hm

theorem keyOf_ne_all_sites (names : List String) (n : String) (hn : n ∈ names)
    (H : ∀ u, u ∈ names → resolveId u = none → u ≠ "all_sites") :
    keyOf n ≠ "all_sites" := by
  cases hr : resolveId n with
  | none =>
    have : keyOf n = n := by simp [keyOf, hr]
    rw [this]
    exact H n hn hr
  | some cid =>
    have : keyOf n = cid := by simp [keyOf, hr]
    rw [this]
    exact resolveId_ne_all_sites n cid hr

theorem coh_of_nocollision (names : List String) (fetch : Fetch) (s e : Nat)
    (H : ∀ u, u ∈ names → resolveId u = none → ∀ v, v ∈ names → resolveId v ≠ some u) :
    ∀ a b, a ∈ names → b ∈ names → keyOf a = keyOf b →
      entryFor fetch s e a = entryFor fetch s e b := by
  intro a b ha hb hk
  cases hra : resolveId a with
  | none =>
    cases hrb : resolveId b with
    | none =>
      have hab : a = b := by simpa [keyOf, hra, hrb] using hk
      rw [hab]
    | some cb =>
      exfalso
      have hab : a = cb := by simpa [keyOf, hra, hrb] using hk
      exact H a ha hra b hb (by rw [hrb, hab])
  | some ca =>
    cases hrb : resolveId b with
    | none =>
      exfalso
      have hab : ca = b := by simpa [keyOf, hra, hrb] using hk
      exact H b hb hrb a ha (by rw [hra, hab])
    | some cb =>
      have hcc : ca = cb := by simpa [keyOf, hra, hrb] using hk
      simp [entryFor, hra, hrb, hcc]

theorem getAvailability_entry (names : List String) (s e : Nat) (fetch : Fetch)
    (hcoh : ∀ a b, a ∈ names → b ∈ names → keyOf a = keyOf b →
      entryFor fetch s e a = entryFor fetch s e b)
    (hkey : ∀ n, n ∈ names → keyOf n ≠ "all_sites")
    (n : String) (hn : n ∈ names) :
    dfind (getAvailability names s e fetch) (keyOf n) = some (entryFor fetch s e n) := by
  show dfind
    (dinsert "all_sites"
      (Entry.index (names.foldl (processName fetch s e) (ReqState.mk [] [])).allSites)
      (names.foldl (processName fetch s e) (ReqState.mk [] [])).results) (keyOf n) = _
  rw [dfind_dinsert, if_neg (hkey n hn)]
  exact foldl_processName_mem fetch s e names (ReqState.mk [] []) n hn hcoh

theorem fetchedAvail_congr (fetch fetch' : Fetch) (cid : String) (s e : Nat)
    (h : ∀ m, fetch cid m = fetch' cid m) :
    fetchedAvail fetch cid s e = fetchedAvail fetch' cid s e := by
  have aux : ∀ (L : List Nat) (acc : MonthData),
      L.foldl
        (fun acc m =>
          match fetch cid m with
          | Except.ok md => mergeStep acc md
          | Except.error _ => acc) acc =
      L.foldl
        (fun acc m =>
          match fetch' cid m with
          | Except.ok md => mergeStep acc md
          | Except.error _ => acc) acc := by
    intro L
    induction L with
    | nil => intro acc; rfl
    | cons m t ih =>
      intro acc
      rw [List.foldl_cons, List.foldl_cons, h m]
      exact ih _
  exact aux (monthAnchors s e) []

/-! ### Claim C6 -/

/-- C6 counterexample: requesting the unresolvable name "232369" alongside
"Camp Dick" (whose resolved identifier is the string "232369") makes the
unknown-name failure overwrite Camp Dick's success entry: the aggregate no
longer contains any success entry for the resolved campground, so a failure
for one requested name altered the other campground's result entry. -/
theorem c6_collision_counterexample :
    dfind (getAvailability ["Camp Dick", "232369"] aug1 aug2 sampleFetch) "232369" =
      some (Entry.error "Unknown campground name") ∧
    dfind (getAvailability ["Camp Dick"] aug1 aug2 sampleFetch) "232369" =
      some (Entry.success "Camp Dick" ["2025-08-01T00:00:00Z", "2025-08-02T00:00:00Z"]
        ["A1 (2 nights)"] ["A2 (1 nights)"]) := by
  decide

/-- C6 (amended with the proviso that no unresolvable supplied name equals
"all_sites" or the resolved identifier of a requested campground): the
aggregate holds, under each requested name's key, exactly the entry that
name's own processing produces, and that entry depends on the fetch oracle
only at the name's own resolved identifier — so a failure affecting one
requested campground or name never alters another's entry, and every
requested campground/name has its entry (success or error). -/
theorem c6_isolation (names : List String) (s e : Nat) (fetch fetch' : Fetch)
    (H : ∀ u, u ∈ names → resolveId u = none →
      u ≠ "all_sites" ∧ ∀ v, v ∈ names → resolveId v ≠ some u) :
    (∀ n, n ∈ names →
      dfind (getAvailability names s e fetch) (keyOf n) = some (entryFor fetch s e n)) ∧
    (∀ n, n ∈ names → (∀ m, fetch (keyOf n) m = fetch' (keyOf n) m) →
      entryFor fetch s e n = entryFor fetch' s e n) := by
  constructor
  · intro n hn
    exact getAvailability_entry names s e fetch
      (coh_of_nocollision names fetch s e (fun u hu hru => (H u hu hru).2))
      (fun x hx => keyOf_ne_all_sites names x hx (fun u hu hru => (H u hu hru).1))
      n hn
  · intro n hn hfe
    cases hr : resolveId n with
    | none => simp [entryFor, hr]
    | some cid =>
      have hk : keyOf n = cid := by simp [keyOf, hr]
      rw [hk] at hfe
      have hfa := fetchedAvail_congr fetch fetch' cid s e hfe
      simp [entryFor, hr, successFor, hfa]

/-- Witness for C6 on a single-name request. -/
theorem c6_isolation_witness :
    dfind (getAvailability ["Camp Dick"] aug1 aug2 sampleFetch) (keyOf "Camp Dick") =
      some (entryFor sampleFetch aug1 aug2 "Camp Dick") :=
  (c6_isolation ["Camp Dick"] aug1 aug2 sampleFetch sampleFetch (by decide)).1
    "Camp Dick" (by decide)

/-! ### Claim C7 -/

/-- C7 counterexample: the supplied name "232369" has no directory match,
yet when "Camp Dick" (resolved identifier "232369") is requested after it,
the aggregate contains no error entry keyed by that literal name — the
success payload overwrote it. -/
theorem c7_clobbered_counterexample :
    resolveId "232369" = none ∧
    dfind (getAvailability ["232369", "Camp Dick"] aug1 aug2 sampleFetch) "232369" ≠
      some (Entry.error "Unknown campground name") := by
  decide

/-- Variant of `foldl_processName_mem` whose coherence hypothesis binds
only the one name in question: every other requested name whose key
coincides with this name's key must produce the same entry. -/
theorem foldl_processName_mem_one (fetch : Fetch) (s e : Nat) (L : List String)
    (st : ReqState) (n : String) (hn : n ∈ L)
    (hcoh : ∀ b, b ∈ L → keyOf b = keyOf n →
      entryFor fetch s e b = entryFor fetch s e n) :
    dfind ((L.foldl (processName fetch s e) st)).results (keyOf n) =
      some (entryFor fetch s e n) := by
  induction L generalizing st with
  | nil => cases hn
  | cons m t ih =>
    rcases List.mem_cons.mp hn with rfl | hnt
    · rw [List.foldl_cons]
      apply foldl_processName_preserve
      · intro x hx hkx
        exact hcoh x (List.mem_cons_of_mem n hx) hkx
      · rw [processName_results, if_pos rfl]
    · rw [List.foldl_cons]
      exact ih _ hnt (fun b hb => hcoh b (List.mem_cons_of_mem m hb))

/-- Variant of `getAvailability_entry` whose hypotheses bind only the one
name in question. -/
theorem getAvailability_entry_one (names : List String) (s e : Nat) (fetch : Fetch)
    (n : String) (hn : n ∈ names)
    (hcoh : ∀ b, b ∈ names → keyOf b = keyOf n →
      entryFor fetch s e b = entryFor fetch s e n)
    (hkey : keyOf n ≠ "all_sites") :
    dfind (getAvailability names s e fetch) (keyOf n) = some (entryFor fetch s e n) := by
  show dfind
    (dinsert "all_sites"
      (Entry.index (names.foldl (processName fetch s e) (ReqState.mk [] [])).allSites)
      (names.foldl (processName fetch s e) (ReqState.mk [] [])).results) (keyOf n) = _
  rw [dfind_dinsert, if_neg hkey]
  exact foldl_processName_mem_one fetch s e names (ReqState.mk [] []) n hn hcoh

/-- C7 (amended with the proviso that the unresolvable name itself is not
"all_sites" and does not equal the resolved identifier of any requested
campground — the other requested names are unconstrained): such a name
yields an error entry keyed by the literal supplied name in its original
case, and name resolution is unaffected by the case of the supplied
name. -/
theorem c7_unknown_name (names : List String) (s e : Nat) (fetch : Fetch)
    (name : String) (hmem : name ∈ names) (hun : resolveId name = none)
    (hall : name ≠ "all_sites")
    (hid : ∀ v, v ∈ names → resolveId v ≠ some name) :
    dfind (getAvailability names s e fetch) name =
      some (Entry.error "Unknown campground name") ∧
    (∀ n1 n2 : String, asciiLower n1 = asciiLower n2 → resolveId n1 = resolveId n2) := by
  constructor
  · have hk : keyOf name = name := by simp [keyOf, hun]
    have hent : entryFor fetch s e name = Entry.error "Unknown campground name" := by
      simp [entryFor, hun]
    have hcoh : ∀ b, b ∈ names → keyOf b = keyOf name →
        entryFor fetch s e b = entryFor fetch s e name := by
      intro b hb hkb
      rw [hk] at hkb
      cases hrb : resolveId b with
      | none => simp [entryFor, hrb, hun]
      | some cid =>
        exfalso
        have hcn : cid = name := by simpa [keyOf, hrb] using hkb
        exact hid b hb (by rw [hrb, hcn])
    have h := getAvailability_entry_one names s e fetch name hmem hcoh
      (by rw [hk]; exact hall)
    rw [hk, hent] at h
    exact h
  · intro n1 n2 h
    rw [resolveId, resolveId, h]

/-- Witness for C7: the unresolvable name "Nonexistent Camp" keeps its
error entry even in a request whose other names collide ("232369" is Camp
Dick's identifier), since the proviso binds only the name in question. -/
theorem c7_unknown_name_witness :
    dfind (getAvailability ["Nonexistent Camp", "232369", "Camp Dick"] aug1 aug2 sampleFetch)
      "Nonexistent Camp" = some (Entry.error "Unknown campground name") :=
  (c7_unknown_name ["Nonexistent Camp", "232369", "Camp Dick"] aug1 aug2 sampleFetch
    "Nonexistent Camp" (by decide) (by decide) (by decide) (by decide)).1

/-! ### Claim C10 -/

/-- C10 counterexample: even for a reversed range (end before start), a
resolved campground does not always receive a success payload — an
unresolvable requested name equal to its identifier overwrites its entry
with the unknown-name error. -/
theorem c10_collision_counterexample :
    aug1 < aug2 ∧
    dfind (getAvailability ["Camp Dick", "232369"] aug2 aug1 sampleFetch) "232369" =
      some (Entry.error "Unknown campground name") := by
  decide

/-- C10 (amended with the same no-collision proviso as C6): when the end
date precedes the start date, the expanded night-key list is empty, no
month anchors are queried (the whole aggregate is independent of the fetch
oracle), and every requested campground that resolves receives a success
payload with empty target dates and empty site lists. -/
theorem c10_reversed_range (names : List String) (s e : Nat) (fetch fetch' : Fetch)
    (h : e < s)
    (H : ∀ u, u ∈ names → resolveId u = none →
      u ≠ "all_sites" ∧ ∀ v, v ∈ names → resolveId v ≠ some u) :
    daterange s e = [] ∧
    monthAnchors s e = [] ∧
    getAvailability names s e fetch = getAvailability names s e fetch' ∧
    (∀ n cid, n ∈ names → resolveId n = some cid →
      dfind (getAvailability names s e fetch) cid =
        some (Entry.success ((dfind CAMPGROUND_LOOKUP cid).getD ("Campground " ++ cid))
          [] [] [])) := by
  have hlen : rangeLen s e = 0 := by
    rw [rangeLen]
    omega
  have hdates : datesOf s e = [] := by
    rw [datesOf, hlen]
    rfl
  have hdr : daterange s e = [] := by
    rw [daterange, hdates]
    rfl
  have hma : monthAnchors s e = [] := by
    rw [monthAnchors, hdates]
    rfl
  have hsucc : ∀ g : Fetch, ∀ cid, successFor g s e cid =
      Entry.success ((dfind CAMPGROUND_LOOKUP cid).getD ("Campground " ++ cid)) [] [] [] := by
    intro g cid
    rw [successFor, hdr]
    rw [show fetchedAvail g cid s e = [] from by rw [fetchedAvail, hma]; rfl]
    rfl
  refine ⟨hdr, hma, ?_, ?_⟩
  · have hproc : ∀ st name,
        processName fetch s e st name = processName fetch' s e st name := by
      intro st name
      cases hres : resolveId name with
      | none => simp [processName, hres]
      | some cid => simp [processName, hres, hma]
    have hfold : ∀ (L : List String) (st : ReqState),
        L.foldl (processName fetch s e) st = L.foldl (processName fetch' s e) st := by
      intro L
      induction L with
      | nil => intro st; rfl
      | cons x t ih =>
        intro st
        rw [List.foldl_cons, List.foldl_cons, hproc st x]
        exact ih _
    simp only [getAvailability]
    rw [hfold names (ReqState.mk [] [])]
  · intro n cid hn hres
    have hk : keyOf n = cid := by simp [keyOf, hres]
    have h := getAvailability_entry names s e fetch
      (coh_of_nocollision names fetch s e (fun u hu hru => (H u hu hru).2))
      (fun x hx => keyOf_ne_all_sites names x hx (fun u hu hru => (H u hu hru).1))
      n hn
    rw [hk] at h
    rw [h]
    simp [entryFor, hres, hsucc fetch cid]

/-- Witness for C10: a reversed one-night range for Camp Dick yields a
success entry with empty dates and site lists, with no fetch issued. -/
theorem c10_reversed_range_witness :
    daterange aug2 aug1 = [] ∧
    dfind (getAvailability ["Camp Dick"] aug2 aug1 sampleFetch) "232369" =
      some (Entry.success "Camp Dick" [] [] []) := by
  have h := c10_reversed_range ["Camp Dick"] aug2 aug1 sampleFetch failFetch
    (by decide) (by decide)
  refine ⟨h.1, ?_⟩
  rw [h.2.2.2 "Camp Dick" "232369" (by decide) (by decide)]
  decide

end CampFinder
